import Mathlib

/-
Verification development for the cortex-em-spectrum-foundation repository.

Shallow embedding conventions:
* C++ `double` and `boost cpp_dec_float` values are modelled as `ℚ`
  (all operations the verified claims exercise are exact:
  comparisons, additions of small values, and divisions that cancel).
* `uint64_t`/`size_t` arithmetic is `Nat` with explicit reduction mod 2^64
  where the source can wrap.
* `std::vector<uint8_t>` buffers are `List Nat` (entries are byte values).
* `std::shared_ptr<T>` is `Option T` (null = `none`).
-/

namespace Cortex

/-- Modulus of `uint64_t` / 64-bit `size_t` arithmetic. -/
def U64 : Nat := 18446744073709551616

/-- Wrapping 64-bit addition (`a += b` on `uint64_t`). -/
def add64 (a b : Nat) : Nat := (a + b) % U64

/-- Wrapping 64-bit subtraction (`a -= b` on `uint64_t`). -/
def sub64 (a b : Nat) : Nat := (a + (U64 - b % U64)) % U64

/-- Model of `cortex::RawImage` (screen_capture_win.hpp): BGRA8 row-major
top-down buffer with `stride = width*4`. -/
structure RawImage where
  width : Nat
  height : Nat
  bgra : List Nat
deriving Repr, DecidableEq

/-- Model of `RawImage::ok()`: `width && height && bgra.size() == width*height*4`. -/
def RawImage.ok (img : RawImage) : Bool :=
  decide (0 < img.width) && decide (0 < img.height) &&
    decide (img.bgra.length = img.width * img.height * 4)

instance : Inhabited RawImage := ⟨⟨0, 0, []⟩⟩

/-- Model of `cortex::sig::OperandMap` (operand_map.hpp): the eight-field
frame fingerprint (four channel sums, 32-bit word XOR, FNV-1a hash, dims). -/
structure OperandMap where
  sumB : Nat := 0
  sumG : Nat := 0
  sumR : Nat := 0
  sumA : Nat := 0
  xor32 : Nat := 0
  fnv1a64 : Nat := 0
  width : Nat := 0
  height : Nat := 0
deriving Repr, DecidableEq

/-- FNV-1a 64-bit offset basis (operand_map.hpp). -/
def fnv64_offset : Nat := 1469598103934665603

/-- FNV-1a 64-bit prime (operand_map.hpp). -/
def fnv64_prime : Nat := 1099511628211

/-- One FNV-1a byte step: `f ^= b; f *= fnv64_prime;` on `uint64_t`. -/
def fnvStepByte (f b : Nat) : Nat := (Nat.xor f b) * fnv64_prime % U64

/-- A BGRA byte quadruple packed into one little-endian 32-bit word, as the
`uint32_t` walk in `compute_operand_map` reads it. -/
def word32 (b0 b1 b2 b3 : Nat) : Nat :=
  b0 % 256 + 256 * (b1 % 256) + 65536 * (b2 % 256) + 16777216 * (b3 % 256)

/-- FNV-1a over the four little-endian bytes of one 32-bit word
(the inner `for (k = 0; k < 4; ++k)` loop of `compute_operand_map`). -/
def fnv4 (f px : Nat) : Nat :=
  fnvStepByte (fnvStepByte (fnvStepByte (fnvStepByte f (px % 256))
    (px / 256 % 256)) (px / 65536 % 256)) (px / 16777216 % 256)

/-- The byte buffer split into its 32-bit words (`n32 = size/4` walk;
a trailing partial group is not visited). -/
def toWords : List Nat → List Nat
  | b0 :: b1 :: b2 :: b3 :: rest => word32 b0 b1 b2 b3 :: toWords rest
  | _ => []

/-- Per-channel byte sums of the buffer on `uint64_t` accumulators
(the `npx` loop of `compute_operand_map`; for an `ok` image the buffer is
exactly `npx` quadruples). -/
def channelSums : List Nat → Nat × Nat × Nat × Nat
  | b :: g :: r :: a :: rest =>
      match channelSums rest with
      | (sB, sG, sR, sA) =>
          (add64 b sB, add64 g sG, add64 r sR, add64 a sA)
  | _ => (0, 0, 0, 0)

/-- Model of `cortex::sig::compute_operand_map` (operand_map.hpp):
returns the zero map for a non-`ok` image, else fills dims, channel sums,
the XOR of all 32-bit words, and the FNV-1a hash of all bytes. -/
def compute_operand_map (img : RawImage) : OperandMap :=
  if img.ok then
    match channelSums img.bgra with
    | (sB, sG, sR, sA) =>
        { sumB := sB, sumG := sG, sumR := sR, sumA := sA,
          xor32 := (toWords img.bgra).foldl Nat.xor 0,
          fnv1a64 := (toWords img.bgra).foldl fnv4 fnv64_offset,
          width := img.width, height := img.height }
  else {}

/-- Model of `cortex::sig::same_signature`: all eight fields equal. -/
def same_signature (a b : OperandMap) : Bool :=
  a.width == b.width && a.height == b.height &&
    a.sumB == b.sumB && a.sumG == b.sumG && a.sumR == b.sumR && a.sumA == b.sumA &&
    a.xor32 == b.xor32 && a.fnv1a64 == b.fnv1a64

/-- Model of `cortex::sig::frames_identical`: validity, signature equality,
dimension equality, size equality, then a full byte compare (`memcmp`). -/
def frames_identical (a b : RawImage) (ma mb : OperandMap) : Bool :=
  if !a.ok || !b.ok then false
  else if !same_signature ma mb then false
  else if a.width != b.width || a.height != b.height then false
  else if a.bgra.length != b.bgra.length then false
  else a.bgra == b.bgra

/-- A concrete valid 1×1 BGRA image (black, opaque), used as a test input. -/
def imgA : RawImage := ⟨1, 1, [0, 0, 0, 255]⟩

/-- A concrete valid 1×1 BGRA image differing from `imgA` in one byte. -/
def imgB : RawImage := ⟨1, 1, [1, 0, 0, 255]⟩

/-- Model of `cortex::Route` (or_switch variants): per-tile route decision. -/
inductive Route where
  | CPU
  | GPU
  | Skip
deriving Repr, DecidableEq

/-- Model of `cortex::RouterConfig`: detection thresholds and calibration
requirements. -/
structure RouterConfig where
  epsilon : ℚ := 0
  k_percent : ℚ := 5
  calibration_frames_required : Int := 5
  calibration_min_seconds : ℚ := 1
  allow_skip_route : Bool := true
deriving Repr, DecidableEq

/-- Model of the `cortex::OrSwitch` router state: configuration, the per-tile
`last_change_` table, the calibration counter and flag. -/
structure OrSwitch where
  cfg : RouterConfig
  last_change : List ℚ := []
  frames_seen : Nat := 0
  calibrated : Bool := false
deriving Repr, DecidableEq

/-- Model of `OrSwitch::decide`: out-of-range tiles route to CPU; a stored
change percentage above `k_percent` routes to GPU; a perfectly static tile
routes to Skip only when the skip route is allowed and calibration is done. -/
def OrSwitch.decide (s : OrSwitch) (tile_index : Nat) : Route :=
  if h : tile_index < s.last_change.length then
    let k := s.last_change.get ⟨tile_index, h⟩
    if k ≤ s.cfg.k_percent then
      if s.cfg.allow_skip_route && (k == 0) && s.calibrated then Route.Skip
      else Route.CPU
    else Route.GPU
  else Route.CPU

/-- Model of `cortex::CosmicPixel` (static_frame_generator.hpp);
`CosmicPrecision` components become rationals. -/
structure CosmicPixel where
  red : ℚ
  green : ℚ
  blue : ℚ
  alpha : ℚ
deriving Repr, DecidableEq

/-- Model of `cortex::RGBWAccumulator` (static_frame_parallel.hpp). -/
structure RGBWAccumulator where
  r : ℚ := 0
  g : ℚ := 0
  b : ℚ := 0
  w : ℚ := 0
deriving Repr, DecidableEq

/-- Model of `RGBWAccumulator::to_pixel`: `(r/w, g/w, b/w)` with alpha 1,
or `(0,0,0)` when `w == 0`. -/
def RGBWAccumulator.to_pixel (acc : RGBWAccumulator) : CosmicPixel :=
  if acc.w = 0 then ⟨0, 0, 0, 1⟩
  else ⟨acc.r / acc.w, acc.g / acc.w, acc.b / acc.w, 1⟩

/-- Model of `RGBWAccumulator::add_with_cap`: accumulate the weighted pixel,
then, if the weight would exceed the cap, rescale the cell to the cap while
keeping the running average. -/
def RGBWAccumulator.add_with_cap (acc : RGBWAccumulator) (p : CosmicPixel)
    (weight max_w_cap : ℚ) : RGBWAccumulator :=
  let acc1 : RGBWAccumulator :=
    { r := acc.r + p.red * weight, g := acc.g + p.green * weight,
      b := acc.b + p.blue * weight, w := acc.w + weight }
  if max_w_cap < acc1.w then
    let avg := acc1.to_pixel
    { r := avg.red * max_w_cap, g := avg.green * max_w_cap,
      b := avg.blue * max_w_cap, w := max_w_cap }
  else acc1

/-- Model of `cortex::SceneActivityConfig` (running_stats.hpp / tracker part). -/
structure SceneActivityConfig where
  static_thr : ℚ := 3 / 100
  wake_thr : ℚ := 1 / 20
  dedupe_pause_sec : ℚ := 15
  static_reset_sec : ℚ := 15
  sample_stride : Int := 4
  channel_thr : Int := 4
deriving Repr, DecidableEq

/-- Model of `cortex::SceneActivityDecision`; the C++ field `diff_ratio` is
called `diff_frac` here. -/
structure SceneActivityDecision where
  diff_frac : ℚ := 0
  is_static_scene : Bool := false
  is_scene_awake : Bool := false
  quiet_active : Bool := false
  dedupe_block : Bool := false
  allow_dedupe : Bool := true
  copilot_block : Bool := false
  seconds_in_static : ℚ := 0
  seconds_since_high : ℚ := 0
deriving Repr, DecidableEq

/-- Model of `cortex::sampled_diff_ratio` (C++ name ends differently only to
fit local naming): the fraction of stride-sampled pixels whose B, G or R
delta exceeds `channel_thr`; returns 1 on invalid or mismatched inputs. -/
def sampled_diff_frac (cur prev : RawImage) (stride channel_thr : Int) : ℚ :=
  if !cur.ok || !prev.ok || cur.width != prev.width || cur.height != prev.height then 1
  else
    let stride1 : Nat := (max 1 stride).toNat
    let thr : Int := max 0 channel_thr
    let ys : List Nat := (List.range cur.height).filter (fun y => y % stride1 == 0)
    let xs : List Nat := (List.range cur.width).filter (fun x => x % stride1 == 0)
    let changedAt : Nat → Nat → Bool := fun y x =>
      let i := (y * cur.width + x) * 4
      let db := ((prev.bgra.getD i 0 : Int) - (cur.bgra.getD i 0 : Int)).natAbs
      let dg := ((prev.bgra.getD (i + 1) 0 : Int) - (cur.bgra.getD (i + 1) 0 : Int)).natAbs
      let dr := ((prev.bgra.getD (i + 2) 0 : Int) - (cur.bgra.getD (i + 2) 0 : Int)).natAbs
      decide (thr < db) || decide (thr < dg) || decide (thr < dr)
    let changed : Nat := (ys.map (fun y => (xs.filter (changedAt y)).length)).sum
    let sampled : Nat := ys.length * xs.length
    if sampled = 0 then 0 else (changed : ℚ) / (sampled : ℚ)

/-- Model of the mutable state of `cortex::SceneActivityTracker`. -/
structure SceneActivityTracker where
  cfg : SceneActivityConfig
  scene_awake : Bool := false
  static_run_active : Bool := false
  static_start : ℚ := 0
  last_high_time : ℚ := -1000000000
  dedupe_block_until : ℚ := -1000000000
deriving Repr, DecidableEq

/-- Model of `SceneActivityTracker::start_static_if_needed`. -/
def SceneActivityTracker.start_static_if_needed (tr : SceneActivityTracker)
    (tsec : ℚ) (force : Bool) : SceneActivityTracker :=
  if !tr.static_run_active || force then
    { tr with static_run_active := true, static_start := tsec }
  else tr

/-- Model of `SceneActivityTracker::update`, returning the decision together
with the tracker state after the call. The early branch fires when there is
no valid previous frame or the current frame is invalid. -/
def SceneActivityTracker.update (tr : SceneActivityTracker) (cur : RawImage)
    (prev : Option RawImage) (tsec : ℚ) :
    SceneActivityDecision × SceneActivityTracker :=
  let bad : Bool :=
    match prev with
    | none => true
    | some p => !p.ok || !cur.ok
  if bad then
    let tr1 := tr.start_static_if_needed tsec true
    ({ is_static_scene := true, is_scene_awake := false }, tr1)
  else
    let p := prev.getD default
    let dr := sampled_diff_frac cur p tr.cfg.sample_stride tr.cfg.channel_thr
    let is_static : Bool := decide (dr ≤ tr.cfg.static_thr)
    let is_high : Bool := decide (tr.cfg.wake_thr ≤ dr)
    let is_mid : Bool := !is_static && !is_high
    let tr1 :=
      if is_static then
        let trs := tr.start_static_if_needed tsec false
        if trs.scene_awake && decide (tr.cfg.static_reset_sec ≤ tsec - trs.static_start)
            && decide (tr.cfg.dedupe_pause_sec ≤ tsec - trs.last_high_time) then
          { trs with scene_awake := false }
        else trs
      else { tr with static_run_active := false }
    let tr2 :=
      if is_high then
        { tr1 with scene_awake := true, last_high_time := tsec,
                   dedupe_block_until := tsec + tr.cfg.dedupe_pause_sec }
      else if is_mid then { tr1 with scene_awake := true }
      else tr1
    let block : Bool := decide (tsec < tr2.dedupe_block_until)
    ({ diff_frac := dr,
       is_static_scene := is_static,
       is_scene_awake := tr2.scene_awake,
       quiet_active := is_mid,
       dedupe_block := block,
       allow_dedupe := !block,
       copilot_block := is_static && !tr2.scene_awake,
       seconds_in_static := if is_static then tsec - tr2.static_start else 0,
       seconds_since_high := tsec - tr2.last_high_time }, tr2)

/-- Model of `LLMFramePool::Frame` (llm_frame_pool.hpp): start time, last
observed time, coalesced run length, shared image handle and fingerprint. -/
structure Frame where
  index : Int
  tsec : ℚ
  t_end : ℚ
  run_len : Nat
  img : Option RawImage
  sig : OperandMap
deriving Repr, DecidableEq

/-- Byte size guarded on a possibly-null image handle
(`f.img ? f.img->bgra.size() : 0`). -/
def imgBytes (f : Frame) : Nat :=
  match f.img with
  | some i => i.bgra.length
  | none => 0

/-- Validity of an image handle (`cur.img && cur.img->ok()`). -/
def imgOk : Option RawImage → Bool
  | some i => i.ok
  | none => false

/-- Model of the `LLMFramePool` state: the deque (front of the deque is the
head of the list), byte and time bookkeeping, the knobs, the static-run
pair, and the record of handles published to the quick-lane ring in
publication order. -/
structure PoolState where
  frames : List Frame
  total_bytes : Nat
  latest_ts : ℚ
  retention : ℚ
  budget : Nat
  single_static_mode : Bool
  static_grace : ℚ
  in_static_run : Bool
  static_since : ℚ
  quick_pub : List Frame
deriving Repr, DecidableEq

/-- A fresh pool (the `LLMFramePool` constructor): retention in seconds,
budget in MiB, single-static mode on with a one-second grace. -/
def PoolState.init (retention_seconds : ℚ) (budget_mb : Nat) : PoolState :=
  { frames := [], total_bytes := 0, latest_ts := 0,
    retention := retention_seconds, budget := budget_mb * 1024 * 1024,
    single_static_mode := true, static_grace := 1,
    in_static_run := false, static_since := 0, quick_pub := [] }

/-- The time-eviction loop of `evict_unlocked_keep_one`:
`while (size > 1 && front.t_end < cutoff_end) pop_front`. -/
def evictTime (cutoff : ℚ) : List Frame → Nat → List Frame × Nat
  | f :: g :: rest, tb =>
      if f.t_end < cutoff then evictTime cutoff (g :: rest) (sub64 tb (imgBytes f))
      else (f :: g :: rest, tb)
  | fs, tb => (fs, tb)

/-- The budget-eviction loop of `evict_unlocked_keep_one`:
`while (size > 1 && total_bytes_ > budget) pop_front`. -/
def evictBudget (budget : Nat) : List Frame → Nat → List Frame × Nat
  | f :: g :: rest, tb =>
      if budget < tb then evictBudget budget (g :: rest) (sub64 tb (imgBytes f))
      else (f :: g :: rest, tb)
  | fs, tb => (fs, tb)

/-- Model of `LLMFramePool::evict_unlocked_keep_one`: time eviction by the
scrub window, then budget eviction, both keeping at least one frame. -/
def evict_unlocked_keep_one (s : PoolState) : PoolState :=
  if s.frames.isEmpty then s
  else
    let cutoff := s.latest_ts - max 0 s.retention
    let t := evictTime cutoff s.frames s.total_bytes
    let b := evictBudget s.budget t.1 t.2
    { s with frames := b.1, total_bytes := b.2 }

/-- The static-run collapse loop of `push`:
`while (frames_.size() > 1) { total_bytes_ -= ...; pop_front(); }`. -/
def collapseLoop : List Frame → Nat → List Frame × Nat
  | f :: g :: rest, tb => collapseLoop (g :: rest) (sub64 tb (imgBytes f))
  | fs, tb => (fs, tb)

/-- The coalescing test in `push`:
`last.img && last.img->ok() && frames_identical(*img, *last.img, ...)`. -/
def tailMatches (im : RawImage) (curSig : OperandMap) (last : Frame) : Bool :=
  match last.img with
  | some li => li.ok && frames_identical im li curSig last.sig
  | none => false

/-- The coalescing branch of `push`: extend the tail's `t_end` and `run_len`,
optionally start a static run and, after the grace period, collapse the deque
to the tail (resetting the byte counter to the tail's size), then evict.
Nothing is published to the quick-lane on this path. -/
def coalesceStep (s : PoolState) (last : Frame) (tsec : ℚ) : PoolState :=
  let last1 : Frame := { last with t_end := tsec, run_len := last.run_len + 1 }
  let base : List Frame := s.frames.dropLast ++ [last1]
  let inrun : Bool := if s.single_static_mode then true else s.in_static_run
  let since : ℚ :=
    if s.single_static_mode && !s.in_static_run then tsec else s.static_since
  let collapse : Bool :=
    s.single_static_mode && decide (s.static_grace ≤ tsec - since)
  let fs : List Frame :=
    if collapse then (collapseLoop base s.total_bytes).1 else base
  let tb : Nat :=
    if collapse then
      match fs.getLast? with
      | some f => imgBytes f
      | none => 0
    else s.total_bytes
  evict_unlocked_keep_one
    { s with frames := fs, total_bytes := tb,
             in_static_run := inrun, static_since := since }

/-- The append branch of `push`: append a fresh frame with `run_len = 1`,
count its bytes, publish a copy of it to the quick-lane, then evict. -/
def appendStep (s : PoolState) (im : RawImage) (curSig : OperandMap)
    (index : Int) (tsec : ℚ) : PoolState :=
  let f : Frame :=
    { index := index, tsec := tsec, t_end := tsec, run_len := 1,
      img := some im, sig := curSig }
  evict_unlocked_keep_one
    { s with frames := s.frames ++ [f],
             total_bytes := add64 s.total_bytes im.bgra.length,
             quick_pub := s.quick_pub ++ [f] }

/-- Model of `LLMFramePool::push` (llm_frame_pool.hpp lines 61-120): a null
or invalid image is returned unchanged and the pool is untouched; otherwise
the timestamp is recorded and the frame either coalesces into an identical
tail or is appended and published. The pushed handle is always returned. -/
def push (s : PoolState) (img : Option RawImage) (index : Int) (tsec : ℚ) :
    Option RawImage × PoolState :=
  match img with
  | none => (none, s)
  | some im =>
      if !im.ok then (some im, s)
      else
        let curSig := compute_operand_map im
        let s1 := { s with latest_ts := tsec }
        match s1.frames.getLast? with
        | some last =>
            if tailMatches im curSig last then (some im, coalesceStep s1 last tsec)
            else
              (some im,
                appendStep { s1 with in_static_run := false, static_since := 0 }
                  im curSig index tsec)
        | none => (some im, appendStep s1 im curSig index tsec)

/-- A run of consecutive pushes of the same image at the given
(index, time) pairs. -/
def pushRun (s : PoolState) (im : RawImage) : List (Int × ℚ) → PoolState
  | [] => s
  | (i, t) :: rest => pushRun (push s (some im) i t).2 im rest

/-- The time of the last push of a run starting at `tcur`. -/
def runEndTime (tcur : ℚ) (ts : List (Int × ℚ)) : ℚ :=
  ts.foldl (fun _ p => p.2) tcur

/-- The property that the deque tail does not coalesce with a pushed image:
its handle is null, invalid, of other dimensions, or has a differing buffer. -/
def tailDiffers (im : RawImage) (last : Frame) : Prop :=
  match last.img with
  | none => True
  | some li =>
      li.ok = false ∨ li.width ≠ im.width ∨ li.height ≠ im.height ∨
        li.bgra ≠ im.bgra

/-- Model of `LLMFramePool::snapshot_recent`: walk the deque backwards
collecting frames with `tsec >= latest - last_seconds`, fall back to the
newest frame when none qualify, and return in chronological order. -/
def snapshot_recent (s : PoolState) (last_seconds : ℚ) : List Frame :=
  match s.frames.getLast? with
  | none => []
  | some back =>
      let cutoff := s.latest_ts - max 0 last_seconds
      let out := s.frames.reverse.takeWhile (fun f => decide (cutoff ≤ f.tsec))
      let out := if out.isEmpty then [back] else out
      out.reverse

/-- Rounding as `std::round` does it: half away from zero. -/
def roundQ (q : ℚ) : Int := if 0 ≤ q then ⌊q + 1 / 2⌋ else -⌊-q + 1 / 2⌋

/-- Model of `LLMFramePool::expand_repeats`: the span runs to the frame's own
`t_end` when its run was extended, else to the next clip frame's start (its
own start when last); at least one repeat is always produced. -/
def expand_repeats (cur : Frame) (nxt : Option Frame) (fps : Int) : Nat :=
  let e : ℚ :=
    if cur.tsec < cur.t_end then cur.t_end
    else
      match nxt with
      | some n => n.tsec
      | none => cur.tsec
  let span : ℚ := max 0 (e - cur.tsec)
  (max 1 (roundQ (span * fps))).toNat

/-- The BMP-writing loop of `LLMFramePool::export_recent_to_video`, counting
emitted frames: each clip entry with a valid image contributes its
`expand_repeats`; entries with missing or invalid images are skipped. -/
def export_written_loop (fps : Int) : List Frame → Nat
  | [] => 0
  | c :: rest =>
      (if imgOk c.img then expand_repeats c rest.head? fps else 0) +
        export_written_loop fps rest

/-- The number of frames `export_recent_to_video` writes for a window and an
fps (the call site clamps the fps with `std::max(1, fps)`). -/
def export_written (s : PoolState) (last_seconds : ℚ) (fps : Int) : Nat :=
  export_written_loop (max 1 fps) (snapshot_recent s last_seconds)

/-- Modelled from the spec wording of claim C2: the per-frame repeat count
`max(1, round((t_end − t_start) · fps))` with the frame's own recorded times,
summed over the snapshot. -/
def spec_claimed_count (clip : List Frame) (fps : Int) : Nat :=
  (clip.map (fun f => (max 1 (roundQ ((f.t_end - f.tsec) * fps))).toNat)).sum

/-- Each clip frame paired with its successor, as the export loop sees it. -/
def withNext : List Frame → List (Frame × Option Frame)
  | [] => []
  | [c] => [(c, none)]
  | c :: n :: rest => (c, some n) :: withNext (n :: rest)

/-- The effective end time the export actually uses for a frame. -/
def effectiveEnd (cur : Frame) (nxt : Option Frame) : ℚ :=
  if cur.tsec < cur.t_end then cur.t_end
  else
    match nxt with
    | some n => n.tsec
    | none => cur.tsec

/-- The amended C2 count: the sum over the snapshot's valid-image frames of
`max(1, round(max(0, end − t_start) · fps))`, where `end` is the frame's own
`t_end` when its run was extended and otherwise the next frame's start. -/
def amended_count (clip : List Frame) (fps : Int) : Nat :=
  ((withNext clip).map (fun cn =>
      if imgOk cn.1.img then
        (max 1 (roundQ (max 0 (effectiveEnd cn.1 cn.2 - cn.1.tsec) * fps))).toNat
      else 0)).sum

/-- The pool after pushing `imgA` at time 0 and `imgB` at time 1 (a concrete
two-frame history used to evaluate the export count). -/
def poolAB : PoolState :=
  (push (push (PoolState.init 300 1024) (some imgA) 0 0).2 (some imgB) 1 1).2

/-- Clamp as `std::clamp(v, lo, hi)` computes it for `lo ≤ hi`. -/
def clampQ (v lo hi : ℚ) : ℚ := min (max v lo) hi

/-- The byte store `static_cast<uint8_t>(double)` on the clamped
(non-negative) range the resize produces: truncate, then wrap to a byte. -/
def toUint8 (q : ℚ) : Nat := (⌊q⌋).toNat % 256

/-- The `sample` lambda of `resize_bgra_bilinear` (src/unnamed/part_008):
clamp the source coordinates, take the four neighbours, and mix bilinearly
on channel `c`. -/
def resizeSample (src : RawImage) (fx0 fy0 : ℚ) (c : Nat) : ℚ :=
  let fx := clampQ fx0 0 ((src.width - 1 : Nat) : ℚ)
  let fy := clampQ fy0 0 ((src.height - 1 : Nat) : ℚ)
  let x0 : Int := ⌊fx⌋
  let y0 : Int := ⌊fy⌋
  let x1 : Int := min (x0 + 1) ((src.width - 1 : Nat) : Int)
  let y1 : Int := min (y0 + 1) ((src.height - 1 : Nat) : Int)
  let tx : ℚ := fx - (x0 : ℚ)
  let ty : ℚ := fy - (y0 : ℚ)
  let px : Int → Int → ℚ := fun xx yy =>
    (src.bgra.getD ((yy * (src.width : Int) + xx) * 4 + (c : Int)).toNat 0 : ℚ)
  let a := (1 - tx) * px x0 y0 + tx * px x1 y0
  let b := (1 - tx) * px x0 y1 + tx * px x1 y1
  (1 - ty) * a + ty * b

/-- One destination byte of `resize_bgra_bilinear`, at flat index
`i = (y·newW + x)·4 + c` of the row-major BGRA output: alpha is forced to
255, the colour channels are the clamped, truncated bilinear samples at the
pixel-center mapping `(x+0.5)·W/newW − 0.5`. -/
def resizeEntry (src : RawImage) (newW newH : Nat) (i : Nat) : Nat :=
  let c := i % 4
  let x := i / 4 % newW
  let y := i / (4 * newW)
  if c = 3 then 255
  else
    let sx : ℚ := (src.width : ℚ) / (newW : ℚ)
    let sy : ℚ := (src.height : ℚ) / (newH : ℚ)
    let fx : ℚ := ((x : ℚ) + 1 / 2) * sx - 1 / 2
    let fy : ℚ := ((y : ℚ) + 1 / 2) * sy - 1 / 2
    toUint8 (clampQ (resizeSample src fx fy c) 0 255)

/-- Model of `resize_bgra_bilinear` (image_ops, src/unnamed/part_008):
an empty image for invalid input or zero target size, else the row-major
BGRA buffer of bilinear samples with alpha forced to 255. -/
def resize_bgra_bilinear (src : RawImage) (newW newH : Nat) : RawImage :=
  if !src.ok || newW == 0 || newH == 0 then ⟨0, 0, []⟩
  else
    { width := newW, height := newH,
      bgra := (List.range (newH * newW * 4)).map (resizeEntry src newW newH) }

/-- The capture loop of `static_frame_generator.cpp` `main`
(`for (int f = 0; f < total_frames; ++f)`), reduced to what the loop does
per tick: tick `f` captures an image; an invalid capture hits
`if (!raw.ok()) continue;` and skips the tick entirely — nothing is
resized, pushed, recorded, and `frames_captured` is not incremented — while
a valid capture is processed with frame index `f` and timestamp `f / fps`
and counted. The loop variable advances every tick either way. Returns the
(index, timestamp) pairs of the processed ticks in order, and the final
`frames_captured`. -/
def capture_loop_go (fps : Int) : Nat → List RawImage → List (Int × ℚ) × Nat
  | _, [] => ([], 0)
  | f, raw :: rest =>
      let r := capture_loop_go fps (f + 1) rest
      if raw.ok then (((f : Int), (f : ℚ) / (fps : ℚ)) :: r.1, r.2 + 1)
      else r

/-- The whole capture loop, ticks numbered from 0. -/
def capture_loop (captures : List RawImage) (fps : Int) :
    List (Int × ℚ) × Nat :=
  capture_loop_go fps 0 captures

/-- Modelled from the spec wording of claim C5: if the frame counter were
not advanced on a failed tick and the next successful capture received the
index the failed tick would have used, the k-th processed frame would carry
index k. -/
def spec_claimed_indices (captures : List RawImage) : List Int :=
  (List.range (captures.filter (fun r => r.ok)).length).map (fun k => (k : Int))

section Theorems

theorem same_signature_refl (m : OperandMap) : same_signature m m = true := by
  simp [same_signature]

theorem frames_identical_self (a : RawImage) (h : a.ok = true) :
    frames_identical a a (compute_operand_map a) (compute_operand_map a) = true := by
  simp [frames_identical, h, same_signature_refl]

theorem chain_head_le {l : List Frame} {a : Frame}
    (h : List.Chain' (fun x y => x.t_end ≤ y.t_end) (a :: l)) :
    ∀ b ∈ l, a.t_end ≤ b.t_end := by
  induction l generalizing a with
  | nil => simp
  | cons c l ih =>
    intro b hb
    have hac : a.t_end ≤ c.t_end := (List.chain'_cons.mp h).1
    rcases List.mem_cons.mp hb with hb | hb
    · exact hb ▸ hac
    · exact le_trans hac (ih (List.chain'_cons.mp h).2 b hb)

theorem evictTime_shape (cutoff : ℚ) (l : List Frame) :
    ∀ (f : Frame) (tb : Nat),
      ∃ l2 tb2, evictTime cutoff (l ++ [f]) tb = (l2 ++ [f], tb2) ∧
        l2.IsSuffix l := by
  induction l with
  | nil =>
    intro f tb
    exact ⟨[], tb, rfl, List.nil_suffix⟩
  | cons a l ih =>
    intro f tb
    cases l with
    | nil =>
      by_cases h : a.t_end < cutoff
      · exact ⟨[], sub64 tb (imgBytes a), by simp [evictTime, h], List.nil_suffix⟩
      · exact ⟨[a], tb, by simp [evictTime, h], List.suffix_refl _⟩
    | cons b l2 =>
      by_cases h : a.t_end < cutoff
      · obtain ⟨l3, tb3, heq, hsuf⟩ := ih f (sub64 tb (imgBytes a))
        refine ⟨l3, tb3, ?_, hsuf.trans (List.suffix_cons a _)⟩
        simpa [evictTime, h] using heq
      · exact ⟨a :: b :: l2, tb, by simp [evictTime, h], List.suffix_refl _⟩

theorem evictTime_all (cutoff : ℚ) (l : List Frame) :
    ∀ (f : Frame) (tb : Nat),
      List.Chain' (fun x y => x.t_end ≤ y.t_end) l → cutoff ≤ f.t_end →
      ∀ g ∈ (evictTime cutoff (l ++ [f]) tb).1, cutoff ≤ g.t_end := by
  induction l with
  | nil =>
    intro f tb _ hf g hg
    simp [evictTime] at hg
    exact hg ▸ hf
  | cons a l ih =>
    intro f tb hchain hf g hg
    cases l with
    | nil =>
      by_cases h : a.t_end < cutoff
      · simp [evictTime, h] at hg
        exact hg ▸ hf
      · simp [evictTime, h] at hg
        rcases hg with hg | hg
        · exact hg ▸ not_lt.mp h
        · exact hg ▸ hf
    | cons b l2 =>
      by_cases h : a.t_end < cutoff
      · refine ih f (sub64 tb (imgBytes a)) (List.chain'_cons.mp hchain).2 hf g ?_
        simpa [evictTime, h] using hg
      · have ha : cutoff ≤ a.t_end := not_lt.mp h
        have hres : (evictTime cutoff ((a :: b :: l2) ++ [f]) tb).1 =
            (a :: b :: l2) ++ [f] := by
          simp [evictTime, h]
        rw [hres] at hg
        rcases List.mem_append.mp hg with hg | hg
        · rcases List.mem_cons.mp hg with hg | hg
          · exact hg ▸ ha
          · exact le_trans ha (chain_head_le hchain g hg)
        · simp at hg
          exact hg ▸ hf

theorem evictBudget_shape (budget : Nat) (l : List Frame) :
    ∀ (f : Frame) (tb : Nat),
      ∃ l2 tb2, evictBudget budget (l ++ [f]) tb = (l2 ++ [f], tb2) ∧
        l2.IsSuffix l := by
  induction l with
  | nil =>
    intro f tb
    exact ⟨[], tb, rfl, List.nil_suffix⟩
  | cons a l ih =>
    intro f tb
    cases l with
    | nil =>
      by_cases h : budget < tb
      · exact ⟨[], sub64 tb (imgBytes a), by simp [evictBudget, h], List.nil_suffix⟩
      · exact ⟨[a], tb, by simp [evictBudget, h], List.suffix_refl _⟩
    | cons b l2 =>
      by_cases h : budget < tb
      · obtain ⟨l3, tb3, heq, hsuf⟩ := ih f (sub64 tb (imgBytes a))
        refine ⟨l3, tb3, ?_, hsuf.trans (List.suffix_cons a _)⟩
        simpa [evictBudget, h] using heq
      · exact ⟨a :: b :: l2, tb, by simp [evictBudget, h], List.suffix_refl _⟩

theorem evictBudget_exit (budget : Nat) (l : List Frame) :
    ∀ (tb : Nat), l ≠ [] →
      (∃ x, (evictBudget budget l tb).1 = [x]) ∨
        (evictBudget budget l tb).2 ≤ budget := by
  induction l with
  | nil => intro tb h; exact absurd rfl h
  | cons a l ih =>
    intro tb _
    cases l with
    | nil => exact Or.inl ⟨a, by simp [evictBudget]⟩
    | cons b l2 =>
      by_cases h : budget < tb
      · have := ih (sub64 tb (imgBytes a)) (by simp)
        simpa [evictBudget, h] using this
      · refine Or.inr ?_
        simpa [evictBudget, h] using not_lt.mp h

theorem isEmpty_concat_false (l : List Frame) (f : Frame) :
    (l ++ [f]).isEmpty = false := by
  cases l <;> rfl

theorem collapseLoop_fst (l : List Frame) :
    ∀ (f : Frame) (tb : Nat), (collapseLoop (l ++ [f]) tb).1 = [f] := by
  induction l with
  | nil => intro f tb; rfl
  | cons a l ih =>
    intro f tb
    cases l with
    | nil => simpa [collapseLoop] using ih f (sub64 tb (imgBytes a))
    | cons b l2 => simpa [collapseLoop] using ih f (sub64 tb (imgBytes a))

theorem evict_keep_one_shape (s : PoolState) (l : List Frame) (fl : Frame)
    (hframes : s.frames = l ++ [fl]) :
    ∃ l2 tb2, l2.IsSuffix l ∧
      evict_unlocked_keep_one s =
        { s with frames := l2 ++ [fl], total_bytes := tb2 } := by
  obtain ⟨l2, tb2, heqT, hsufT⟩ :=
    evictTime_shape (s.latest_ts - max 0 s.retention) l fl s.total_bytes
  obtain ⟨l3, tb3, heqB, hsufB⟩ := evictBudget_shape s.budget l2 fl tb2
  refine ⟨l3, tb3, hsufB.trans hsufT, ?_⟩
  simp only [evict_unlocked_keep_one, hframes, isEmpty_concat_false,
    Bool.false_eq_true, if_false, heqT, heqB]

theorem evict_keep_one_spec (s : PoolState) (l : List Frame) (fl : Frame)
    (hframes : s.frames = l ++ [fl])
    (hchain : List.Chain' (fun x y => x.t_end ≤ y.t_end) l)
    (hf : s.latest_ts - max 0 s.retention ≤ fl.t_end) :
    ∃ f rest,
      (evict_unlocked_keep_one s).frames = f :: rest ∧
      (rest = [] ∨
        (s.latest_ts - max 0 s.retention ≤ f.t_end ∧
          (evict_unlocked_keep_one s).total_bytes ≤ s.budget)) := by
  obtain ⟨l2, tb2, heqT, hsufT⟩ :=
    evictTime_shape (s.latest_ts - max 0 s.retention) l fl s.total_bytes
  obtain ⟨l3, tb3, heqB, hsufB⟩ := evictBudget_shape s.budget l2 fl tb2
  have hev : evict_unlocked_keep_one s =
      { s with frames := l3 ++ [fl], total_bytes := tb3 } := by
    simp only [evict_unlocked_keep_one, hframes, isEmpty_concat_false,
      Bool.false_eq_true, if_false, heqT, heqB]
  have hallT : ∀ g ∈ l2 ++ [fl],
      s.latest_ts - max 0 s.retention ≤ g.t_end := by
    have := evictTime_all (s.latest_ts - max 0 s.retention) l fl s.total_bytes
      hchain hf
    rw [heqT] at this
    exact this
  have hexit := evictBudget_exit s.budget (l2 ++ [fl]) tb2 (by
    cases l2 <;> simp)
  rw [heqB] at hexit
  cases l3 with
  | nil => exact ⟨fl, [], by simp [hev], Or.inl rfl⟩
  | cons h t =>
    refine ⟨h, t ++ [fl], by simp [hev], Or.inr ⟨?_, ?_⟩⟩
    · refine hallT h (List.mem_append.mpr (Or.inl ?_))
      exact hsufB.sublist.subset (by simp)
    · rcases hexit with ⟨x, hx⟩ | hle
      · exact absurd hx (by simp)
      · simpa [hev] using hle

theorem evict_keep_one_latest (s : PoolState) :
    (evict_unlocked_keep_one s).latest_ts = s.latest_ts := by
  unfold evict_unlocked_keep_one
  split <;> rfl

theorem evict_keep_one_quick_pub (s : PoolState) :
    (evict_unlocked_keep_one s).quick_pub = s.quick_pub := by
  unfold evict_unlocked_keep_one
  split <;> rfl

theorem coalesceStep_spec (s : PoolState) (last : Frame) (tsec : ℚ) :
    ∃ l2 tb inr sin,
      (l2 = [] ∨ l2 = s.frames.dropLast) ∧
      coalesceStep s last tsec =
        evict_unlocked_keep_one
          { s with
            frames := l2 ++ [{ last with t_end := tsec, run_len := last.run_len + 1 }],
            total_bytes := tb, in_static_run := inr, static_since := sin } := by
  by_cases hc : (s.single_static_mode &&
      decide (s.static_grace ≤ tsec -
        (if s.single_static_mode && !s.in_static_run then tsec else s.static_since))) = true
  · refine ⟨[], imgBytes { last with t_end := tsec, run_len := last.run_len + 1 },
      (if s.single_static_mode then true else s.in_static_run),
      (if s.single_static_mode && !s.in_static_run then tsec else s.static_since),
      Or.inl rfl, ?_⟩
    simp only [coalesceStep]
    rw [hc]
    simp [collapseLoop_fst]
  · have hc2 : (s.single_static_mode &&
        decide (s.static_grace ≤ tsec -
          (if s.single_static_mode && !s.in_static_run then tsec
           else s.static_since))) = false := by
      simpa using hc
    refine ⟨s.frames.dropLast, s.total_bytes,
      (if s.single_static_mode then true else s.in_static_run),
      (if s.single_static_mode && !s.in_static_run then tsec else s.static_since),
      Or.inr rfl, ?_⟩
    simp only [coalesceStep]
    rw [hc2]
    simp

theorem appendStep_retention (s1 : PoolState) (im : RawImage) (sg : OperandMap)
    (index : Int) (tsec : ℚ)
    (hchain : List.Chain' (fun x y => x.t_end ≤ y.t_end) s1.frames)
    (hf : s1.latest_ts - max 0 s1.retention ≤ tsec) :
    ∃ f rest, (appendStep s1 im sg index tsec).frames = f :: rest ∧
      (rest = [] ∨
        (s1.latest_ts - max 0 s1.retention ≤ f.t_end ∧
          (appendStep s1 im sg index tsec).total_bytes ≤ s1.budget)) := by
  have h := evict_keep_one_spec
    { s1 with
      frames := s1.frames ++ [⟨index, tsec, tsec, 1, some im, sg⟩],
      total_bytes := add64 s1.total_bytes im.bgra.length,
      quick_pub := s1.quick_pub ++ [⟨index, tsec, tsec, 1, some im, sg⟩] }
    s1.frames ⟨index, tsec, tsec, 1, some im, sg⟩ rfl hchain (by simpa using hf)
  simpa [appendStep] using h

theorem appendStep_latest (s1 : PoolState) (im : RawImage) (sg : OperandMap)
    (index : Int) (tsec : ℚ) :
    (appendStep s1 im sg index tsec).latest_ts = s1.latest_ts := by
  simp [appendStep, evict_keep_one_latest]

/-- C3: after a push of a valid image, the deque holds at least one frame,
and either exactly one frame, or the oldest frame's `t_end` is within the
retention window of the latest timestamp and the byte counter is within the
budget. The deque is assumed time-ordered on `t_end` (as every time-monotone
push sequence keeps it) and the retention knob non-negative (as the setters
enforce). -/
theorem c3_push_retention_invariant (s : PoolState) (im : RawImage)
    (index : Int) (tsec : ℚ) (hok : im.ok = true)
    (hchain : List.Chain' (fun x y => x.t_end ≤ y.t_end) s.frames)
    (hret : 0 ≤ s.retention) :
    ∃ f rest, (push s (some im) index tsec).2.frames = f :: rest ∧
      (rest = [] ∨
        ((push s (some im) index tsec).2.latest_ts - s.retention ≤ f.t_end ∧
          (push s (some im) index tsec).2.total_bytes ≤ s.budget)) := by
  have hok2 : (!im.ok) = false := by rw [hok]; rfl
  have hmax : max (0 : ℚ) s.retention = s.retention := max_eq_right hret
  have hrle : tsec - max 0 s.retention ≤ tsec := by
    rw [hmax]; exact sub_le_self tsec hret
  cases hlast : s.frames.getLast? with
  | none =>
    have hpush : (push s (some im) index tsec).2 =
        appendStep { s with latest_ts := tsec } im (compute_operand_map im)
          index tsec := by
      simp [push, hok2, hlast]
    obtain ⟨f, rest, hfr, hdisj⟩ := appendStep_retention
      { s with latest_ts := tsec } im (compute_operand_map im) index tsec
      hchain (by simpa using hrle)
    rw [hpush]
    refine ⟨f, rest, hfr, ?_⟩
    simpa [hmax, appendStep_latest] using hdisj
  | some last =>
    by_cases hm : tailMatches im (compute_operand_map im) last = true
    · have hpush : (push s (some im) index tsec).2 =
          coalesceStep { s with latest_ts := tsec } last tsec := by
        simp [push, hok2, hlast, hm]
      obtain ⟨l2, tb, inr, sin, hl2, hco⟩ :=
        coalesceStep_spec { s with latest_ts := tsec } last tsec
      have hchain2 : List.Chain' (fun x y => x.t_end ≤ y.t_end) l2 := by
        rcases hl2 with h2 | h2
        · rw [h2]; exact List.chain'_nil
        · rw [h2]
          have hsplit : s.frames.dropLast ++ [last] = s.frames :=
            List.dropLast_append_getLast? last (by rw [hlast]; rfl)
          have := hchain
          rw [← hsplit] at this
          simpa using this.left_of_append
      obtain ⟨f, rest, hfr, hdisj⟩ := evict_keep_one_spec
        { s with
          latest_ts := tsec,
          frames := l2 ++ [{ last with t_end := tsec, run_len := last.run_len + 1 }],
          total_bytes := tb, in_static_run := inr, static_since := sin }
        l2 { last with t_end := tsec, run_len := last.run_len + 1 }
        (by simp) hchain2 (by simpa using hrle)
      rw [hpush, hco]
      refine ⟨f, rest, hfr, ?_⟩
      simpa [hmax, evict_keep_one_latest] using hdisj
    · have hm2 : tailMatches im (compute_operand_map im) last = false :=
        Bool.not_eq_true _ ▸ hm
      have hpush : (push s (some im) index tsec).2 =
          appendStep
            { s with latest_ts := tsec, in_static_run := false, static_since := 0 }
            im (compute_operand_map im) index tsec := by
        simp [push, hok2, hlast, hm2]
      obtain ⟨f, rest, hfr, hdisj⟩ := appendStep_retention
        { s with latest_ts := tsec, in_static_run := false, static_since := 0 }
        im (compute_operand_map im) index tsec hchain (by simpa using hrle)
      rw [hpush]
      refine ⟨f, rest, hfr, ?_⟩
      simpa [hmax, appendStep_latest] using hdisj

/-- C3 witness: a concrete time-ordered two-frame pool accepts a fresh valid
image and satisfies the retention disjunction. -/
theorem c3_witness :
    imgB.ok = true ∧
    List.Chain' (fun x y => x.t_end ≤ y.t_end)
      (push (PoolState.init 300 1024) (some imgA) 0 0).2.frames ∧
    (0 : ℚ) ≤ (push (PoolState.init 300 1024) (some imgA) 0 0).2.retention ∧
    (∃ f rest,
      (push (push (PoolState.init 300 1024) (some imgA) 0 0).2 (some imgB) 1 1).2.frames
        = f :: rest ∧
      (rest = [] ∨
        ((push (push (PoolState.init 300 1024) (some imgA) 0 0).2 (some imgB) 1 1).2.latest_ts
            - (push (PoolState.init 300 1024) (some imgA) 0 0).2.retention ≤ f.t_end ∧
          (push (push (PoolState.init 300 1024) (some imgA) 0 0).2 (some imgB) 1 1).2.total_bytes
            ≤ (push (PoolState.init 300 1024) (some imgA) 0 0).2.budget))) := by
  have hch : List.Chain' (fun x y => x.t_end ≤ y.t_end)
      (push (PoolState.init 300 1024) (some imgA) 0 0).2.frames := by
    have h : (push (PoolState.init 300 1024) (some imgA) 0 0).2.frames =
        [⟨0, 0, 0, 1, some imgA, compute_operand_map imgA⟩] := rfl
    rw [h]
    simp
  exact ⟨by decide, hch, by decide,
    c3_push_retention_invariant (push (PoolState.init 300 1024) (some imgA) 0 0).2
      imgB 1 1 (by decide) hch (by decide)⟩

theorem frames_identical_ne_false (a b : RawImage) (ma mb : OperandMap)
    (h : a.width ≠ b.width ∨ a.height ≠ b.height ∨ a.bgra ≠ b.bgra) :
    frames_identical a b ma mb = false := by
  unfold frames_identical
  split
  · rfl
  split
  · rfl
  split
  · rfl
  split
  · rfl
  next h1 h2 h3 h4 =>
    have hw : a.width = b.width := by
      by_contra hne
      exact h3 (by simp [bne_iff_ne, hne])
    have hh : a.height = b.height := by
      by_contra hne
      exact h3 (by simp [bne_iff_ne, hne])
    rcases h with h | h | h
    · exact absurd hw h
    · exact absurd hh h
    · exact beq_eq_false_iff_ne.mpr h

theorem tailMatches_false_of_differs (im : RawImage) (c : OperandMap)
    (last : Frame) (h : tailDiffers im last) :
    tailMatches im c last = false := by
  cases himg : last.img with
  | none => simp [tailMatches, himg]
  | some li =>
    unfold tailDiffers at h
    rw [himg] at h
    rcases h with h | h | h | h
    · simp [tailMatches, himg, h]
    · simp [tailMatches, himg,
        frames_identical_ne_false im li c last.sig (Or.inl h.symm)]
    · simp [tailMatches, himg,
        frames_identical_ne_false im li c last.sig (Or.inr (Or.inl h.symm))]
    · simp [tailMatches, himg,
        frames_identical_ne_false im li c last.sig (Or.inr (Or.inr h.symm))]

theorem tailMatches_self (im : RawImage) (hok : im.ok = true) (last : Frame)
    (himg : last.img = some im)
    (hsig : last.sig = compute_operand_map im) :
    tailMatches im (compute_operand_map im) last = true := by
  simp [tailMatches, himg, hok, hsig, frames_identical_self im hok]

theorem appendStep_shape (s1 : PoolState) (im : RawImage) (sg : OperandMap)
    (index : Int) (tsec : ℚ) :
    ∃ l2, l2.IsSuffix s1.frames ∧
      (appendStep s1 im sg index tsec).frames =
        l2 ++ [⟨index, tsec, tsec, 1, some im, sg⟩] ∧
      (appendStep s1 im sg index tsec).quick_pub =
        s1.quick_pub ++ [⟨index, tsec, tsec, 1, some im, sg⟩] := by
  obtain ⟨l2, tb2, hsuf, hev⟩ := evict_keep_one_shape
    { s1 with
      frames := s1.frames ++ [⟨index, tsec, tsec, 1, some im, sg⟩],
      total_bytes := add64 s1.total_bytes im.bgra.length,
      quick_pub := s1.quick_pub ++ [⟨index, tsec, tsec, 1, some im, sg⟩] }
    s1.frames ⟨index, tsec, tsec, 1, some im, sg⟩ rfl
  exact ⟨l2, hsuf, by simp [appendStep, hev], by simp [appendStep, hev]⟩

theorem pushRun_coalesce_invariant (im : RawImage) (hok : im.ok = true)
    (ts : List (Int × ℚ)) :
    ∀ (s : PoolState) (l : List Frame) (i0 : Int) (t0 tcur : ℚ) (k : Nat),
      s.frames = l ++ [⟨i0, t0, tcur, k, some im, compute_operand_map im⟩] →
      ∃ l2, l2.IsSuffix l ∧
        (pushRun s im ts).frames =
          l2 ++ [⟨i0, t0, runEndTime tcur ts, k + ts.length, some im,
            compute_operand_map im⟩] ∧
        (pushRun s im ts).quick_pub = s.quick_pub := by
  induction ts with
  | nil =>
    intro s l i0 t0 tcur k hfr
    refine ⟨l, List.suffix_refl l, ?_, rfl⟩
    simpa [pushRun, runEndTime] using hfr
  | cons p rest ih =>
    intro s l i0 t0 tcur k hfr
    obtain ⟨i, t⟩ := p
    have hok2 : (!im.ok) = false := by rw [hok]; rfl
    have hlast : s.frames.getLast? =
        some ⟨i0, t0, tcur, k, some im, compute_operand_map im⟩ := by
      rw [hfr]
      exact List.getLast?_concat _
    have hm : tailMatches im (compute_operand_map im)
        ⟨i0, t0, tcur, k, some im, compute_operand_map im⟩ = true :=
      tailMatches_self im hok _ rfl rfl
    have hpush : (push s (some im) i t).2 =
        coalesceStep { s with latest_ts := t }
          ⟨i0, t0, tcur, k, some im, compute_operand_map im⟩ t := by
      simp [push, hok2, hlast, hm]
    obtain ⟨l2, tb, inr, sin, hl2, hco⟩ :=
      coalesceStep_spec { s with latest_ts := t }
        ⟨i0, t0, tcur, k, some im, compute_operand_map im⟩ t
    have hl2s : l2.IsSuffix l := by
      rcases hl2 with h2 | h2
      · rw [h2]
        exact List.nil_suffix
      · rw [h2]
        have : ({ s with latest_ts := t } : PoolState).frames.dropLast = l := by
          have : ({ s with latest_ts := t } : PoolState).frames =
              l ++ [⟨i0, t0, tcur, k, some im, compute_operand_map im⟩] := hfr
          rw [this]
          exact List.dropLast_concat
        rw [this]
    obtain ⟨l3, tb3, hsuf3, hev⟩ := evict_keep_one_shape
      { { s with latest_ts := t } with
        frames := l2 ++ [⟨i0, t0, t, k + 1, some im, compute_operand_map im⟩],
        total_bytes := tb, in_static_run := inr, static_since := sin }
      l2 ⟨i0, t0, t, k + 1, some im, compute_operand_map im⟩ rfl
    have hstep : (push s (some im) i t).2.frames =
        l3 ++ [⟨i0, t0, t, k + 1, some im, compute_operand_map im⟩] := by
      rw [hpush, hco]
      exact congrArg PoolState.frames hev
    have hstep_pub : (push s (some im) i t).2.quick_pub = s.quick_pub := by
      rw [hpush, hco]
      have := congrArg PoolState.quick_pub hev
      simpa using this
    obtain ⟨l4, hsuf4, hfrF, hpubF⟩ :=
      ih (push s (some im) i t).2 l3 i0 t0 t (k + 1) hstep
    refine ⟨l4, (hsuf4.trans hsuf3).trans hl2s, ?_, ?_⟩
    · rw [show pushRun s im ((i, t) :: rest) =
          pushRun (push s (some im) i t).2 im rest from rfl, hfrF]
      have hlen : k + 1 + rest.length = k + ((i, t) :: rest).length := by
        simp
        omega
      have hrt : runEndTime t rest = runEndTime tcur ((i, t) :: rest) := rfl
      rw [hlen, hrt]
    · rw [show pushRun s im ((i, t) :: rest) =
          pushRun (push s (some im) i t).2 im rest from rfl, hpubF, hstep_pub]

/-- C1: starting from any pool whose deque is empty or whose tail frame
differs from the valid image `im`, a run of `N = 1 + ts.length ≥ 1`
consecutive pushes of `im` produces exactly one new deque entry — appended
by the first push with `run_len = 1`, then only extended: its final `t_end`
is the last push time and its `run_len` is `N` — and exactly one quick-lane
publication, namely the first push's frame; the surviving older entries are
an untouched suffix of the original deque. -/
theorem c1_coalesce_on_identity (s : PoolState) (im : RawImage)
    (i0 : Int) (t0 : ℚ) (ts : List (Int × ℚ)) (hok : im.ok = true)
    (hfresh : ∀ last, s.frames.getLast? = some last → tailDiffers im last) :
    ∃ l2, l2.IsSuffix s.frames ∧
      (pushRun s im ((i0, t0) :: ts)).frames =
        l2 ++ [⟨i0, t0, runEndTime t0 ts, 1 + ts.length, some im,
          compute_operand_map im⟩] ∧
      (pushRun s im ((i0, t0) :: ts)).quick_pub =
        s.quick_pub ++ [⟨i0, t0, t0, 1, some im, compute_operand_map im⟩] := by
  have hok2 : (!im.ok) = false := by rw [hok]; rfl
  have happ : ∃ s1 : PoolState,
      (push s (some im) i0 t0).2 =
        appendStep s1 im (compute_operand_map im) i0 t0 ∧
      s1.frames = s.frames ∧ s1.quick_pub = s.quick_pub := by
    cases hlast : s.frames.getLast? with
    | none =>
      exact ⟨{ s with latest_ts := t0 }, by simp [push, hok2, hlast], rfl, rfl⟩
    | some last =>
      have hm : tailMatches im (compute_operand_map im) last = false :=
        tailMatches_false_of_differs im _ last (hfresh last hlast)
      exact ⟨{ s with latest_ts := t0, in_static_run := false, static_since := 0 },
        by simp [push, hok2, hlast, hm], rfl, rfl⟩
  obtain ⟨s1, hpush1, hfr1, hpub1⟩ := happ
  obtain ⟨l2, hsuf2, hfr2, hpub2⟩ :=
    appendStep_shape s1 im (compute_operand_map im) i0 t0
  obtain ⟨l4, hsuf4, hfrF, hpubF⟩ := pushRun_coalesce_invariant im hok ts
    (push s (some im) i0 t0).2 l2 i0 t0 t0 1 (by rw [hpush1]; exact hfr2)
  refine ⟨l4, ?_, ?_, ?_⟩
  · exact (hsuf4.trans (hfr1 ▸ hsuf2))
  · rw [show pushRun s im ((i0, t0) :: ts) =
        pushRun (push s (some im) i0 t0).2 im ts from rfl, hfrF]
  · rw [show pushRun s im ((i0, t0) :: ts) =
        pushRun (push s (some im) i0 t0).2 im ts from rfl,
      hpubF, hpush1, hpub2, hpub1]

/-- C1 witness: two consecutive pushes of `imgA` into a pool whose tail
holds `imgB` coalesce into a single appended entry with `run_len = 2` and a
single publication. -/
theorem c1_witness :
    imgA.ok = true ∧
    (∃ l2, l2.IsSuffix (push (PoolState.init 300 1024) (some imgB) 0 0).2.frames ∧
      (pushRun (push (PoolState.init 300 1024) (some imgB) 0 0).2 imgA
          [((1 : Int), (1 : ℚ)), ((2 : Int), (2 : ℚ))]).frames =
        l2 ++ [⟨1, 1, (2 : ℚ), 2, some imgA, compute_operand_map imgA⟩] ∧
      (pushRun (push (PoolState.init 300 1024) (some imgB) 0 0).2 imgA
          [((1 : Int), (1 : ℚ)), ((2 : Int), (2 : ℚ))]).quick_pub =
        (push (PoolState.init 300 1024) (some imgB) 0 0).2.quick_pub ++
          [⟨1, 1, 1, 1, some imgA, compute_operand_map imgA⟩]) :=
  ⟨by decide,
    c1_coalesce_on_identity (push (PoolState.init 300 1024) (some imgB) 0 0).2
      imgA 1 1 [((2 : Int), (2 : ℚ))] (by decide)
      (by
        intro last hlast
        have h0 : (push (PoolState.init 300 1024) (some imgB) 0 0).2.frames =
            [⟨0, 0, 0, 1, some imgB, compute_operand_map imgB⟩] := rfl
        rw [h0] at hlast
        have hl : last = ⟨0, 0, 0, 1, some imgB, compute_operand_map imgB⟩ :=
          (by simpa using hlast : _ = last).symm
        rw [hl]
        exact Or.inr (Or.inr (Or.inr (by decide))))⟩

/-- C2 counterexample: for the pool that saw `imgA` at time 0 and `imgB` at
time 1, the exporter writes 31 frames at 30 fps, while the claimed formula
`Σ max(1, round((t_end − t_start)·fps))` over the same snapshot gives 2:
the claim as stated is false, because a frame whose run was never extended
(`t_end = t_start`) is expanded to the gap to the NEXT frame's start. -/
theorem c2_counterexample :
    export_written poolAB 10 30 = 31 ∧
    spec_claimed_count (snapshot_recent poolAB 10) 30 = 2 ∧
    export_written poolAB 10 30 ≠
      spec_claimed_count (snapshot_recent poolAB 10) 30 := by
  have hA : (push (PoolState.init 300 1024) (some imgA) 0 0).2 =
      { frames := [⟨0, 0, 0, 1, some imgA, compute_operand_map imgA⟩],
        total_bytes := 4, latest_ts := 0, retention := 300,
        budget := 1073741824, single_static_mode := true, static_grace := 1,
        in_static_run := false, static_since := 0,
        quick_pub := [⟨0, 0, 0, 1, some imgA, compute_operand_map imgA⟩] } := rfl
  have hm : tailMatches imgB (compute_operand_map imgB)
      ⟨0, 0, 0, 1, some imgA, compute_operand_map imgA⟩ = false := by decide
  have hokB : (!imgB.ok) = false := by decide
  have hlen : imgB.bgra.length = 4 := rfl
  have hB : poolAB =
      { frames := [⟨0, 0, 0, 1, some imgA, compute_operand_map imgA⟩,
          ⟨1, 1, 1, 1, some imgB, compute_operand_map imgB⟩],
        total_bytes := 8, latest_ts := 1, retention := 300,
        budget := 1073741824, single_static_mode := true, static_grace := 1,
        in_static_run := false, static_since := 0,
        quick_pub := [⟨0, 0, 0, 1, some imgA, compute_operand_map imgA⟩,
          ⟨1, 1, 1, 1, some imgB, compute_operand_map imgB⟩] } := by
    show (push (push (PoolState.init 300 1024) (some imgA) 0 0).2
      (some imgB) 1 1).2 = _
    rw [hA]
    norm_num [push, hokB, hm, hlen, appendStep, evict_unlocked_keep_one,
      evictTime, evictBudget, add64, sub64, U64]
  have h31 : export_written poolAB 10 30 = 31 := by
    rw [export_written, hB]
    norm_num [snapshot_recent, export_written_loop, expand_repeats, roundQ,
      imgOk, imgA, imgB, RawImage.ok, List.takeWhile]
    decide
  have h2 : spec_claimed_count (snapshot_recent poolAB 10) 30 = 2 := by
    rw [hB]
    norm_num [snapshot_recent, spec_claimed_count, roundQ, List.takeWhile]
  refine ⟨h31, h2, ?_⟩
  rw [h31, h2]
  decide

/-- C2 (amended): the number of frames the export loop writes equals the sum
over the snapshot's valid-image frames of `max(1, round(max(0, end −
t_start) · fps))`, where `end` is the frame's own `t_end` when its run was
extended (`t_end > t_start`), and otherwise the next snapshot frame's start
time (the frame's own start when it is last). -/
theorem c2_export_count_amended (clip : List Frame) (fps : Int)
    (hfps : 1 ≤ fps) :
    export_written_loop (max 1 fps) clip = amended_count clip fps := by
  have hmax : max 1 fps = fps := max_eq_right hfps
  rw [hmax]
  induction clip with
  | nil => rfl
  | cons c rest ih =>
    cases rest with
    | nil =>
      show (if imgOk c.img then expand_repeats c none fps else 0) + 0 =
        amended_count [c] fps
      simp [amended_count, withNext, expand_repeats, effectiveEnd]
    | cons n rest2 =>
      have h1 : export_written_loop fps (c :: n :: rest2) =
          (if imgOk c.img then expand_repeats c (some n) fps else 0) +
            export_written_loop fps (n :: rest2) := rfl
      have h2 : amended_count (c :: n :: rest2) fps =
          (if imgOk c.img then
            (max 1 (roundQ (max 0 (effectiveEnd c (some n) - c.tsec) * fps))).toNat
          else 0) + amended_count (n :: rest2) fps := by
        simp [amended_count, withNext]
      rw [h1, h2, ih]
      rfl

/-- C2 (amended) witness: the amended sum matches the export count on the
concrete two-frame snapshot at 30 fps. -/
theorem c2_amended_witness :
    (1 : Int) ≤ 30 ∧
      export_written_loop (max 1 30) (snapshot_recent poolAB 10) =
        amended_count (snapshot_recent poolAB 10) 30 :=
  ⟨by decide, c2_export_count_amended (snapshot_recent poolAB 10) 30 (by decide)⟩

theorem mapRange_getD (n : Nat) (f : Nat → Nat) (j : Nat) (hj : j < n) :
    ((List.range n).map f).getD j 0 = f j := by
  rw [List.getD_eq_getElem?_getD, List.getElem?_map, List.getElem?_range hj]
  rfl

theorem resizeSample_integer (src : RawImage) (x y c : Nat)
    (hx : x < src.width) (hy : y < src.height) :
    resizeSample src (x : ℚ) (y : ℚ) c =
      (src.bgra.getD ((y * src.width + x) * 4 + c) 0 : ℚ) := by
  have hclx : clampQ (x : ℚ) 0 ((src.width - 1 : Nat) : ℚ) = (x : ℚ) := by
    unfold clampQ
    rw [max_eq_left (Nat.cast_nonneg x)]
    exact min_eq_left (Nat.cast_le.mpr (by omega))
  have hcly : clampQ (y : ℚ) 0 ((src.height - 1 : Nat) : ℚ) = (y : ℚ) := by
    unfold clampQ
    rw [max_eq_left (Nat.cast_nonneg y)]
    exact min_eq_left (Nat.cast_le.mpr (by omega))
  have hidx : (((y : Int)) * (src.width : Int) + ((x : Int))) * 4 + ((c : Int)) =
      (((y * src.width + x) * 4 + c : Nat) : Int) := by
    push_cast
    ring
  simp only [resizeSample, hclx, hcly, Int.floor_natCast, Int.cast_natCast,
    sub_self, one_mul, zero_mul, add_zero, mul_zero, sub_zero, zero_add]
  rw [hidx, Int.toNat_natCast]

theorem resizeEntry_same (src : RawImage)
    (hw : 0 < src.width) (hh : 0 < src.height)
    (hlen : src.bgra.length = src.width * src.height * 4)
    (hbytes : ∀ j, j < src.bgra.length → src.bgra.getD j 0 ≤ 255)
    (halpha : ∀ p, p < src.width * src.height →
      src.bgra.getD (p * 4 + 3) 0 = 255)
    (i : Nat) (hi : i < src.bgra.length) :
    resizeEntry src src.width src.height i = src.bgra.getD i 0 := by
  have hxW : i / 4 % src.width < src.width := Nat.mod_lt _ hw
  have hyH : i / (4 * src.width) < src.height := by
    rw [Nat.div_lt_iff_lt_mul (by positivity)]
    have h1 : src.width * src.height * 4 = src.height * (4 * src.width) := by ring
    rw [hlen, h1] at hi
    exact hi
  have hrecon : (i / (4 * src.width) * src.width + i / 4 % src.width) * 4 + i % 4 = i := by
    have h1 : 4 * (i / 4) + i % 4 = i := Nat.div_add_mod i 4
    have h2 : i / 4 / src.width = i / (4 * src.width) :=
      Nat.div_div_eq_div_mul i 4 src.width
    have h3 : src.width * (i / 4 / src.width) + i / 4 % src.width = i / 4 :=
      Nat.div_add_mod (i / 4) src.width
    calc (i / (4 * src.width) * src.width + i / 4 % src.width) * 4 + i % 4
        = (i / 4 / src.width * src.width + i / 4 % src.width) * 4 + i % 4 := by
          rw [h2]
      _ = (src.width * (i / 4 / src.width) + i / 4 % src.width) * 4 + i % 4 := by
          rw [Nat.mul_comm (i / 4 / src.width) src.width]
      _ = (i / 4) * 4 + i % 4 := by rw [h3]
      _ = 4 * (i / 4) + i % 4 := by rw [Nat.mul_comm (i / 4) 4]
      _ = i := h1
  have hp : i / (4 * src.width) * src.width + i / 4 % src.width <
      src.width * src.height := by
    have ha : i / (4 * src.width) * src.width + i / 4 % src.width <
        i / (4 * src.width) * src.width + src.width := Nat.add_lt_add_left hxW _
    have hb : i / (4 * src.width) * src.width + src.width =
        (i / (4 * src.width) + 1) * src.width := by ring
    have hc : (i / (4 * src.width) + 1) * src.width ≤ src.height * src.width :=
      Nat.mul_le_mul_right _ hyH
    calc i / (4 * src.width) * src.width + i / 4 % src.width
        < (i / (4 * src.width) + 1) * src.width := by rw [← hb]; exact ha
      _ ≤ src.height * src.width := hc
      _ = src.width * src.height := Nat.mul_comm _ _
  by_cases hc3 : i % 4 = 3
  · have h255 : src.bgra.getD
        ((i / (4 * src.width) * src.width + i / 4 % src.width) * 4 + 3) 0 = 255 :=
      halpha _ hp
    rw [hc3] at hrecon
    rw [hrecon] at h255
    simp only [resizeEntry]
    rw [if_pos hc3]
    exact h255.symm
  · have hWQ : ((src.width : ℚ) / (src.width : ℚ)) = 1 :=
      div_self (Nat.cast_ne_zero.mpr (by omega))
    have hHQ : ((src.height : ℚ) / (src.height : ℚ)) = 1 :=
      div_self (Nat.cast_ne_zero.mpr (by omega))
    have hfx : (((i / 4 % src.width : Nat) : ℚ) + 1 / 2) *
        ((src.width : ℚ) / (src.width : ℚ)) - 1 / 2 =
        ((i / 4 % src.width : Nat) : ℚ) := by
      rw [hWQ]
      ring
    have hfy : (((i / (4 * src.width) : Nat) : ℚ) + 1 / 2) *
        ((src.height : ℚ) / (src.height : ℚ)) - 1 / 2 =
        ((i / (4 * src.width) : Nat) : ℚ) := by
      rw [hHQ]
      ring
    simp only [resizeEntry]
    rw [if_neg hc3, hfx, hfy, resizeSample_integer src _ _ _ hxW hyH, hrecon]
    have hble : src.bgra.getD i 0 ≤ 255 := hbytes i hi
    have hcl : clampQ ((src.bgra.getD i 0 : Nat) : ℚ) 0 255 =
        ((src.bgra.getD i 0 : Nat) : ℚ) := by
      unfold clampQ
      rw [max_eq_left (Nat.cast_nonneg _)]
      refine min_eq_left ?_
      exact_mod_cast hble
    rw [hcl]
    unfold toUint8
    rw [Int.floor_natCast, Int.toNat_natCast]
    exact Nat.mod_eq_of_lt (by omega)

/-- C9: resizing a valid image with alpha 255 everywhere to its own size
returns an image whose every byte is within one of the source byte (here in
fact equal): dimensions and length are preserved and each channel differs by
at most 1. -/
theorem c9_resize_same_size_identity (src : RawImage) (hok : src.ok = true)
    (hbytes : ∀ j, j < src.bgra.length → src.bgra.getD j 0 ≤ 255)
    (halpha : ∀ p, p < src.width * src.height →
      src.bgra.getD (p * 4 + 3) 0 = 255) :
    (resize_bgra_bilinear src src.width src.height).width = src.width ∧
    (resize_bgra_bilinear src src.width src.height).height = src.height ∧
    (resize_bgra_bilinear src src.width src.height).bgra.length =
      src.bgra.length ∧
    ∀ i, i < src.bgra.length →
      (((resize_bgra_bilinear src src.width src.height).bgra.getD i 0 : Int) -
        (src.bgra.getD i 0 : Int)).natAbs ≤ 1 := by
  have h3 := hok
  simp only [RawImage.ok, Bool.and_eq_true, decide_eq_true_eq] at h3
  obtain ⟨⟨hw, hh⟩, hlen⟩ := h3
  have hguard : (!src.ok || src.width == 0 || src.height == 0) = false := by
    simp [hok]
    omega
  have hres : resize_bgra_bilinear src src.width src.height =
      { width := src.width, height := src.height,
        bgra := (List.range (src.height * src.width * 4)).map
          (resizeEntry src src.width src.height) } := by
    simp only [resize_bgra_bilinear, hguard, Bool.false_eq_true, if_false]
  refine ⟨by rw [hres], by rw [hres], ?_, ?_⟩
  · rw [hres]
    simp only [List.length_map, List.length_range, hlen]
    ring
  · intro i hi
    have hin : i < src.height * src.width * 4 := by
      rw [hlen] at hi
      calc i < src.width * src.height * 4 := hi
        _ = src.height * src.width * 4 := by ring
    have hsame := resizeEntry_same src hw hh hlen hbytes halpha i hi
    rw [hres]
    show ((((List.range (src.height * src.width * 4)).map
        (resizeEntry src src.width src.height)).getD i 0 : Int) -
      (src.bgra.getD i 0 : Int)).natAbs ≤ 1
    rw [mapRange_getD _ _ i hin, hsame]
    simp

/-- C9 witness: the identity bound at a concrete opaque 1×1 image. -/
theorem c9_witness :
    imgA.ok = true ∧
    (∀ j, j < imgA.bgra.length → imgA.bgra.getD j 0 ≤ 255) ∧
    (∀ p, p < imgA.width * imgA.height →
      imgA.bgra.getD (p * 4 + 3) 0 = 255) ∧
    ((resize_bgra_bilinear imgA imgA.width imgA.height).width = imgA.width ∧
     (resize_bgra_bilinear imgA imgA.width imgA.height).height = imgA.height ∧
     (resize_bgra_bilinear imgA imgA.width imgA.height).bgra.length =
       imgA.bgra.length ∧
     ∀ i, i < imgA.bgra.length →
       (((resize_bgra_bilinear imgA imgA.width imgA.height).bgra.getD i 0 : Int) -
         (imgA.bgra.getD i 0 : Int)).natAbs ≤ 1) :=
  ⟨by decide, by decide, by decide,
    c9_resize_same_size_identity imgA (by decide) (by decide) (by decide)⟩

theorem capture_loop_go_spec (fps : Int) (l : List RawImage) : ∀ f0,
    (capture_loop_go fps f0 l).1 =
      ((List.enumFrom f0 l).filter (fun p => p.2.ok)).map
        (fun p => ((p.1 : Int), (p.1 : ℚ) / (fps : ℚ))) ∧
    (capture_loop_go fps f0 l).2 = (l.filter (fun r => r.ok)).length := by
  induction l with
  | nil =>
    intro f0
    exact ⟨rfl, rfl⟩
  | cons raw rest ih =>
    intro f0
    by_cases hok : raw.ok
    · refine ⟨?_, ?_⟩
      · simp [capture_loop_go, hok, List.enumFrom, (ih (f0 + 1)).1]
      · simp [capture_loop_go, hok, (ih (f0 + 1)).2]
    · refine ⟨?_, ?_⟩
      · simp [capture_loop_go, hok, List.enumFrom, (ih (f0 + 1)).1]
      · simp [capture_loop_go, hok, (ih (f0 + 1)).2]

/-- C5 counterexample: with a failed capture at tick 0 and a successful one
at tick 1, the loop pushes index 1, not the index 0 the claim predicts from
"the frame counter is not advanced, so the next successfully captured frame
receives the same frame index the failed tick would have used". -/
theorem c5_counterexample :
    (capture_loop [RawImage.mk 0 0 [], imgA] 30).1.map Prod.fst = [1] ∧
    spec_claimed_indices [RawImage.mk 0 0 [], imgA] = [0] ∧
    (capture_loop [RawImage.mk 0 0 [], imgA] 30).1.map Prod.fst ≠
      spec_claimed_indices [RawImage.mk 0 0 [], imgA] :=
  ⟨by decide, by decide, by decide⟩

/-- C5 (amended): an invalid capture skips the tick — no frame is
processed and `frames_captured` is not incremented — but the loop index
still advances every tick: each processed frame carries its own tick number
as frame index (with timestamp `f / fps`), so the frame after a failed tick
receives the next index, not the failed tick's index. -/
theorem c5_skip_tick_amended (captures : List RawImage) (fps : Int) :
    (capture_loop captures fps).1 =
      ((List.enumFrom 0 captures).filter (fun p => p.2.ok)).map
        (fun p => ((p.1 : Int), (p.1 : ℚ) / (fps : ℚ))) ∧
    (capture_loop captures fps).2 = (captures.filter (fun r => r.ok)).length :=
  capture_loop_go_spec fps captures 0

/-- C10: pushing a null handle or an invalid image returns the argument and
leaves the whole pool state (deque, byte counter, latest timestamp, static
flags and quick-lane record) exactly as before. -/
theorem c10_push_invalid_is_noop (s : PoolState) (img : Option RawImage)
    (index : Int) (tsec : ℚ)
    (h : img = none ∨ ∃ im, img = some im ∧ im.ok = false) :
    push s img index tsec = (img, s) := by
  rcases h with h | ⟨im, h, hbad⟩ <;> subst h
  · rfl
  · simp [push, hbad]

/-- C10 witness: a concrete invalid image (zero dimensions) is returned
unchanged and leaves a concrete pool untouched. -/
theorem c10_witness :
    ((some (RawImage.mk 0 0 []) : Option RawImage) = none ∨
      ∃ im, (some (RawImage.mk 0 0 []) : Option RawImage) = some im ∧ im.ok = false) ∧
    push (PoolState.init 300 1024) (some (RawImage.mk 0 0 [])) 7 3 =
      (some (RawImage.mk 0 0 []), PoolState.init 300 1024) :=
  ⟨Or.inr ⟨RawImage.mk 0 0 [], rfl, by decide⟩,
    c10_push_invalid_is_noop (PoolState.init 300 1024) (some (RawImage.mk 0 0 [])) 7 3
      (Or.inr ⟨RawImage.mk 0 0 [], rfl, by decide⟩)⟩

/-- C4: for every pair of valid images of equal width and height whose byte
buffers differ in at least one byte, `frames_identical` on the two images and
their computed fingerprints returns false — whether or not the fingerprints
collide, the final byte compare (or an earlier check) rejects the pair. -/
theorem c4_frames_identical_false_of_byte_diff (a b : RawImage)
    (ha : a.ok = true) (hb : b.ok = true)
    (hw : a.width = b.width) (hh : a.height = b.height)
    (hdiff : a.bgra ≠ b.bgra) :
    frames_identical a b (compute_operand_map a) (compute_operand_map b) = false := by
  unfold frames_identical
  simp only [ha, hb, Bool.not_true, Bool.or_self, Bool.false_or]
  split
  · rfl
  · simp [hw, hh, hdiff]

/-- C4 witness: two concrete valid 1×1 images differing in one byte are
rejected by `frames_identical`. -/
theorem c4_witness :
    imgA.ok = true ∧ imgB.ok = true ∧
      frames_identical imgA imgB
        (compute_operand_map imgA) (compute_operand_map imgB) = false :=
  ⟨by decide, by decide,
    c4_frames_identical_false_of_byte_diff imgA imgB
      (by decide) (by decide) rfl rfl (by decide)⟩

/-- C7: for every router state and in-range tile index, `decide` returns
`Skip` only if the router is calibrated, the skip route is allowed, and the
stored change percentage is exactly zero; and it returns `GPU` (the offload
route) exactly when the stored change percentage exceeds `k_percent`. -/
theorem c7_decide_skip_gate_and_offload (s : OrSwitch) (i : Nat)
    (h : i < s.last_change.length) :
    (s.decide i = Route.Skip →
      s.calibrated = true ∧ s.cfg.allow_skip_route = true ∧
        s.last_change.get ⟨i, h⟩ = 0) ∧
    (s.decide i = Route.GPU ↔ s.cfg.k_percent < s.last_change.get ⟨i, h⟩) := by
  have hd : s.decide i =
      (if s.last_change.get ⟨i, h⟩ ≤ s.cfg.k_percent then
        if s.cfg.allow_skip_route && (s.last_change.get ⟨i, h⟩ == 0) && s.calibrated
        then Route.Skip else Route.CPU
      else Route.GPU) := by
    simp only [OrSwitch.decide, h, dite_true]
  rw [hd]
  by_cases hle : s.last_change.get ⟨i, h⟩ ≤ s.cfg.k_percent
  · rw [if_pos hle]
    refine ⟨?_, ?_, ?_⟩
    · intro hskip
      by_cases hgate : (s.cfg.allow_skip_route && (s.last_change.get ⟨i, h⟩ == 0)
          && s.calibrated) = true
      · simp only [Bool.and_eq_true, beq_iff_eq] at hgate
        exact ⟨hgate.2, hgate.1.1, hgate.1.2⟩
      · rw [if_neg hgate] at hskip
        exact absurd hskip (by decide)
    · intro hgpu
      exfalso
      split at hgpu <;> simp_all
    · intro hgt
      exact absurd hle (not_le.mpr hgt)
  · rw [if_neg hle]
    exact ⟨fun hskip => absurd hskip (by decide), fun _ => not_le.mp hle,
      fun _ => rfl⟩

/-- C7 witness: a calibrated single-tile router with stored change 0 at a
concrete in-range index. -/
theorem c7_witness :
    0 < (OrSwitch.mk {} [0] 5 true).last_change.length ∧
      ((OrSwitch.mk {} [0] 5 true).decide 0 = Route.Skip →
        (OrSwitch.mk {} [0] 5 true).calibrated = true ∧
          (OrSwitch.mk {} [0] 5 true).cfg.allow_skip_route = true ∧
          (OrSwitch.mk {} [0] 5 true).last_change.get ⟨0, by decide⟩ = 0) ∧
      ((OrSwitch.mk {} [0] 5 true).decide 0 = Route.GPU ↔
        (OrSwitch.mk {} [0] 5 true).cfg.k_percent <
          (OrSwitch.mk {} [0] 5 true).last_change.get ⟨0, by decide⟩) :=
  ⟨by decide, c7_decide_skip_gate_and_offload (OrSwitch.mk {} [0] 5 true) 0 (by decide)⟩

/-- C6: on a tracker update at time `t` with valid current and previous
frames, a high-activity frame (diff fraction at or above `wake_thr`) latches
the awake flag and sets `dedupe_block_until` to `t + dedupe_pause_sec`; a
mid-band frame latches awake but leaves `dedupe_block_until` unchanged; and
the returned decision has `allow_dedupe = (dedupe_block_until ≤ t)` and
`dedupe_block = !allow_dedupe`. -/
theorem c6_tracker_update_bands (tr : SceneActivityTracker) (cur p : RawImage)
    (tsec : ℚ) (hp : p.ok = true) (hc : cur.ok = true) :
    (tr.cfg.wake_thr ≤ sampled_diff_frac cur p tr.cfg.sample_stride tr.cfg.channel_thr →
      (tr.update cur (some p) tsec).2.scene_awake = true ∧
        (tr.update cur (some p) tsec).2.dedupe_block_until =
          tsec + tr.cfg.dedupe_pause_sec) ∧
    (tr.cfg.static_thr < sampled_diff_frac cur p tr.cfg.sample_stride tr.cfg.channel_thr ∧
        sampled_diff_frac cur p tr.cfg.sample_stride tr.cfg.channel_thr < tr.cfg.wake_thr →
      (tr.update cur (some p) tsec).2.scene_awake = true ∧
        (tr.update cur (some p) tsec).2.dedupe_block_until = tr.dedupe_block_until) ∧
    ((tr.update cur (some p) tsec).1.allow_dedupe =
      decide ((tr.update cur (some p) tsec).2.dedupe_block_until ≤ tsec)) ∧
    ((tr.update cur (some p) tsec).1.dedupe_block =
      !(tr.update cur (some p) tsec).1.allow_dedupe) := by
  refine ⟨?_, ?_, ?_, ?_⟩
  · intro hhigh
    simp only [SceneActivityTracker.update, hp, hc]
    simp [hhigh]
  · rintro ⟨hgt, hlt⟩
    have hstat : ¬ sampled_diff_frac cur p tr.cfg.sample_stride tr.cfg.channel_thr ≤
        tr.cfg.static_thr := not_le.mpr hgt
    have hhigh : ¬ tr.cfg.wake_thr ≤
        sampled_diff_frac cur p tr.cfg.sample_stride tr.cfg.channel_thr := not_le.mpr hlt
    simp only [SceneActivityTracker.update, hp, hc]
    simp [hstat, hhigh]
  · simp only [SceneActivityTracker.update, hp, hc]
    simp [← decide_not, not_lt]
  · simp only [SceneActivityTracker.update, hp, hc]
    simp

/-- C6 witness: the band dichotomy and the dedupe output equations at a
concrete tracker state, image pair, and time. -/
theorem c6_witness :
    imgA.ok = true ∧
    ((({ cfg := {} } : SceneActivityTracker).cfg.wake_thr ≤
        sampled_diff_frac imgA imgA ({ cfg := {} } : SceneActivityTracker).cfg.sample_stride
          ({ cfg := {} } : SceneActivityTracker).cfg.channel_thr →
      (({ cfg := {} } : SceneActivityTracker).update imgA (some imgA) 0).2.scene_awake = true ∧
        (({ cfg := {} } : SceneActivityTracker).update imgA (some imgA) 0).2.dedupe_block_until =
          0 + ({ cfg := {} } : SceneActivityTracker).cfg.dedupe_pause_sec) ∧
    (({ cfg := {} } : SceneActivityTracker).cfg.static_thr <
        sampled_diff_frac imgA imgA ({ cfg := {} } : SceneActivityTracker).cfg.sample_stride
          ({ cfg := {} } : SceneActivityTracker).cfg.channel_thr ∧
        sampled_diff_frac imgA imgA ({ cfg := {} } : SceneActivityTracker).cfg.sample_stride
          ({ cfg := {} } : SceneActivityTracker).cfg.channel_thr <
          ({ cfg := {} } : SceneActivityTracker).cfg.wake_thr →
      (({ cfg := {} } : SceneActivityTracker).update imgA (some imgA) 0).2.scene_awake = true ∧
        (({ cfg := {} } : SceneActivityTracker).update imgA (some imgA) 0).2.dedupe_block_until =
          ({ cfg := {} } : SceneActivityTracker).dedupe_block_until) ∧
    ((({ cfg := {} } : SceneActivityTracker).update imgA (some imgA) 0).1.allow_dedupe =
      decide ((({ cfg := {} } : SceneActivityTracker).update imgA (some imgA) 0).2.dedupe_block_until ≤
        (0 : ℚ))) ∧
    ((({ cfg := {} } : SceneActivityTracker).update imgA (some imgA) 0).1.dedupe_block =
      !(({ cfg := {} } : SceneActivityTracker).update imgA (some imgA) 0).1.allow_dedupe)) :=
  ⟨by decide,
    c6_tracker_update_bands { cfg := {} } imgA imgA 0 (by decide) (by decide)⟩

/-- C8: `add_with_cap` with a non-negative weight and a positive cap leaves
the cell weight at most the cap, the rescale preserves the observable pixel
`(r/w, g/w, b/w)`, and `to_pixel` returns `(r/w, g/w, b/w)` when `w > 0` and
`(0,0,0)` when `w == 0`. -/
theorem c8_accumulator_cap (acc : RGBWAccumulator) (p : CosmicPixel)
    (weight cap : ℚ) (hw : 0 ≤ weight) (hcap : 0 < cap) :
    (acc.add_with_cap p weight cap).w ≤ cap ∧
    (acc.add_with_cap p weight cap).to_pixel =
      (RGBWAccumulator.mk (acc.r + p.red * weight) (acc.g + p.green * weight)
        (acc.b + p.blue * weight) (acc.w + weight)).to_pixel ∧
    (0 < acc.w →
      acc.to_pixel = ⟨acc.r / acc.w, acc.g / acc.w, acc.b / acc.w, 1⟩) ∧
    (acc.w = 0 → acc.to_pixel = ⟨0, 0, 0, 1⟩) := by
  refine ⟨?_, ?_, ?_, ?_⟩
  · simp only [RGBWAccumulator.add_with_cap]
    split
    · exact le_refl cap
    · next hno => exact le_of_not_lt hno
  · simp only [RGBWAccumulator.add_with_cap]
    split
    · next hgt =>
      have hw1 : acc.w + weight ≠ 0 := by
        intro h0
        rw [h0] at hgt
        exact absurd (lt_trans hcap hgt) (lt_irrefl 0)
      have hcapne : cap ≠ 0 := ne_of_gt hcap
      simp only [RGBWAccumulator.to_pixel, hw1, if_false]
      simp only [if_neg hcapne]
      congr 1 <;> field_simp <;> ring
    · rfl
  · intro hpos
    simp [RGBWAccumulator.to_pixel, ne_of_gt hpos]
  · intro hzero
    simp [RGBWAccumulator.to_pixel, hzero]

/-- C8 witness: a concrete cell, pixel, weight 1 and cap 2 instantiate the
cap invariant and the rescale/`to_pixel` equations. -/
theorem c8_witness :
    (0 : ℚ) ≤ 1 ∧ (0 : ℚ) < 2 ∧
      (((RGBWAccumulator.mk 1 1 1 1).add_with_cap ⟨1, 1, 1, 1⟩ 1 2).w ≤ 2 ∧
      ((RGBWAccumulator.mk 1 1 1 1).add_with_cap ⟨1, 1, 1, 1⟩ 1 2).to_pixel =
        (RGBWAccumulator.mk (1 + 1 * 1) (1 + 1 * 1) (1 + 1 * 1) (1 + 1)).to_pixel ∧
      (0 < (RGBWAccumulator.mk 1 1 1 1).w →
        (RGBWAccumulator.mk 1 1 1 1).to_pixel = ⟨1 / 1, 1 / 1, 1 / 1, 1⟩) ∧
      ((RGBWAccumulator.mk 1 1 1 1).w = 0 →
        (RGBWAccumulator.mk 1 1 1 1).to_pixel = ⟨0, 0, 0, 1⟩)) :=
  ⟨by norm_num, by norm_num,
    c8_accumulator_cap (RGBWAccumulator.mk 1 1 1 1) ⟨1, 1, 1, 1⟩ 1 2
      (by norm_num) (by norm_num)⟩

end Theorems

end Cortex

